import Mathlib

/-!
Shallow embedding of the joi-temporal extension core (src: the module that
checks Temporal availability, defines `makeExtension`, and instantiates the
eight kind configs).  Host-engine (Joi) behaviour is modelled only at the
interface the core uses: rule attachment with argument assertion, per-call
rule validation, and structured coerce/validate results.  External Temporal
library functions (parsers, `Temporal.Now` readers, `toString`) enter as
parameters of the kind configs; comparators are modelled from their
documented semantics where a claim needs them concretely.
-/

namespace JoiTemporal

/-- A JavaScript input value as seen by a kind with carrier type `α`:
`nullish` covers both `null` and `undefined` (the source tests `value == null`),
`str` is a string, `typed` is a value satisfying the kind's `check`
(`instanceof` test), `other` is any other value (number, object, a Temporal
value of a different kind, ...). -/
inductive JSValue (α : Type) where
  | nullish
  | str (s : String)
  | typed (a : α)
  | other
deriving DecidableEq

/-- A raised Joi error: the message code (`temporal.<name>.<ruleOrBase>`)
plus the local context entries passed to `helpers.error(code, ctx)`. -/
structure JoiError where
  code : String
  ctx : List (String × String)
deriving DecidableEq

/-- Result of the type-level `coerce` step: `{ value }`, `{ errors }`, or an
uncaught exception escaping it (the source's `try`/`catch` is meant to rule
the last out). -/
inductive COut (α : Type) where
  | ok (v : JSValue α)
  | errs (e : JoiError)
  | threw
deriving DecidableEq

/-- Result of running a rule validator (or a chain of them): the value on
success, a structured error, or an uncaught exception at validate() time. -/
inductive VOut (α : Type) where
  | ok (a : α)
  | err (e : JoiError)
  | threw
deriving DecidableEq

/-- A raw rule argument as supplied by the schema author: a string, a value
of the kind (`config.check` holds), or any other JavaScript value. -/
inductive Limit (α : Type) where
  | str (s : String)
  | inst (a : α)
  | other
deriving DecidableEq

/-- Per-rule message overrides (`compareMessages`); absent fields fall back
to `DEFAULT_COMPARE`, mirroring the source's object spread. -/
structure CompareMsgs where
  min : Option String := none
  max : Option String := none
  gt : Option String := none
  lt : Option String := none

/-- Declarative descriptor of one kind (the source's `TypeConfig`).  `τ` is
the type of ambient clock readings: a validate() call happens at some
`t : τ`, and every external `Temporal.Now` read performed during that call
observes `t`.  `parse` returning `none` models `Temporal.*.from` throwing. -/
structure TypeConfig (τ α : Type) where
  name : String
  parse : String → Option α
  baseMessage : String
  compare : Option (τ → α → α → Int) := none
  compareMessages : CompareMsgs := {}
  now : Option (τ → α) := none
  toStr : α → String
  extraMessages : List (String × String) := []

/-- Message code root for a kind: the source's `p = "temporal." + name`. -/
def TypeConfig.tag (cfg : TypeConfig τ α) : String := "temporal." ++ cfg.name

/-- Default comparison-rule message templates (`DEFAULT_COMPARE`). -/
def DEFAULT_COMPARE : List (String × String) :=
  [("min", "\x7b\x7b#label\x7d\x7d must be on or after \x7b#limit\x7d"),
   ("max", "\x7b\x7b#label\x7d\x7d must be on or before \x7b#limit\x7d"),
   ("gt", "\x7b\x7b#label\x7d\x7d must be after \x7b#limit\x7d"),
   ("lt", "\x7b\x7b#label\x7d\x7d must be before \x7b#limit\x7d")]

/-- The source's `CHECKS` table: each primitive comparison rule name with
its tie-break predicate over the three-way comparison result. -/
def CHECKS : List (String × (Int → Bool)) :=
  [("min", fun c => c ≥ 0),
   ("max", fun c => c ≤ 0),
   ("gt", fun c => c > 0),
   ("lt", fun c => c < 0)]

/-- The argument assertion attached to every comparison rule's `limit`
argument: `typeof v === "string" || config.check(v)`. -/
def limitAssert : Option (Limit α) → Bool
  | some (.str _) => true
  | some (.inst _) => true
  | _ => false

/-- Limit resolution inside a comparison rule's validate, exactly the
source's conditional:
`limit === "now" && config.now ? config.now() : typeof limit === "string" ? config.parse(limit) : limit`.
`none` means the resolution (or the subsequent comparison on a junk value)
throws: `parse` failing is NOT caught here, unlike in `coerce`. -/
def resolveLimit (cfg : TypeConfig τ α) (t : τ) : Limit α → Option α
  | .inst a => some a
  | .str s =>
      match cfg.now with
      | some nf => if s = "now" then some (nf t) else cfg.parse s
      | none => cfg.parse s
  | .other => none

/-- Body of a synthesized comparison rule's validate function, for the rule
named `rule` with tie-break predicate `check`, run at clock reading `t`. -/
def cmpRuleValidate (cfg : TypeConfig τ α) (cmp : τ → α → α → Int)
    (rule : String) (check : Int → Bool) (t : τ) (v : α) (l : Limit α) : VOut α :=
  match resolveLimit cfg t l with
  | none => .threw
  | some lim =>
      if check (cmp t v lim) then .ok v
      else .err ⟨cfg.tag ++ "." ++ rule, [("limit", cfg.toStr lim)]⟩

/-- One entry of the synthesized rule table.  `addName` is the rule name the
method records via `$_addRule` (for `gte`/`lte` it is the delegate's name,
since their methods call `this.min`/`this.max`); `takesArg` tells whether
the method signature carries an argument; `argAssert` is the declared
argument assertion checked at attachment time; `validate` is the per-call
validator (absent for the method-only alias entries). -/
structure RuleDef (τ α : Type) where
  addName : String
  takesArg : Bool := true
  argAssert : Option (Limit α) → Bool := fun _ => true
  validate : Option (τ → α → Option (Limit α) → VOut α) := none

/-- A compiled schema for one kind: the ordered list of attached rules, each
with the raw (unresolved) argument recorded at attachment time. -/
abbrev Schema (α : Type) : Type := List (String × Option (Limit α))

/-- Last-match association lookup, mirroring `Object.assign` overriding:
a later entry with the same key shadows an earlier one. -/
def lookupLast {β : Type} : List (String × β) → String → Option β
  | [], _ => none
  | (k, v) :: rest, key =>
      match lookupLast rest key with
      | some r => some r
      | none => if k = key then some v else none

/-- The synthesized extension for one kind: what `makeExtension(config)`
returns to the host engine. -/
structure Extension (τ α : Type) where
  type : String
  messages : List (String × String)
  coerce : JSValue α → COut α
  validate : JSValue α → JSValue α × Option JoiError
  rules : List (String × RuleDef τ α)

/-- The comparison rules generated when `config.compare` is present: the
four primitive rules from `CHECKS`, each storing its own name and declaring
the limit assertion, followed by the `gte`/`lte` alias entries whose methods
delegate to `min`/`max`. -/
def cmpRuleDef (cfg : TypeConfig τ α) (cmp : τ → α → α → Int)
    (rule : String) (check : Int → Bool) : RuleDef τ α :=
  { addName := rule
    takesArg := true
    argAssert := limitAssert
    validate := some fun t v arg =>
      match arg with
      | some l => cmpRuleValidate cfg cmp rule check t v l
      | none => .threw }

/-- The four primitive comparison-rule entries plus the alias entries. -/
def cmpRules (cfg : TypeConfig τ α) (cmp : τ → α → α → Int) :
    List (String × RuleDef τ α) :=
  (CHECKS.map fun rc => (rc.1, cmpRuleDef cfg cmp rc.1 rc.2))
  ++ [("gte", { addName := "min", takesArg := true, argAssert := limitAssert }),
      ("lte", { addName := "max", takesArg := true, argAssert := limitAssert })]

/-- The comparison-rule message table: for each primitive rule, the override
from `config.compareMessages` when given, else the `DEFAULT_COMPARE` entry
(the source's `{ ...DEFAULT_COMPARE, ...config.compareMessages }`). -/
def cmpMessages (cfg : TypeConfig τ α) : List (String × String) :=
  [(cfg.tag ++ ".min", (cfg.compareMessages.min).getD
      ((lookupLast DEFAULT_COMPARE "min").getD "")),
   (cfg.tag ++ ".max", (cfg.compareMessages.max).getD
      ((lookupLast DEFAULT_COMPARE "max").getD "")),
   (cfg.tag ++ ".gt", (cfg.compareMessages.gt).getD
      ((lookupLast DEFAULT_COMPARE "gt").getD "")),
   (cfg.tag ++ ".lt", (cfg.compareMessages.lt).getD
      ((lookupLast DEFAULT_COMPARE "lt").getD ""))]

/-- The `makeExtension` factory: synthesizes the message table, the coerce
step, the defensive validate step, and the rule table from one descriptor.
`extra` is the config's `extraRules` table (already in rule-entry form). -/
def makeExtension (cfg : TypeConfig τ α)
    (extra : List (String × RuleDef τ α)) : Extension τ α :=
  { type := cfg.name
    messages :=
      [(cfg.tag ++ ".base", cfg.baseMessage)]
      ++ (if cfg.compare.isSome then cmpMessages cfg else [])
      ++ cfg.extraMessages
    coerce := fun v =>
      match v with
      | .nullish => .ok .nullish
      | .typed a => .ok (.typed a)
      | .str s =>
          match cfg.parse s with
          | some a => .ok (.typed a)
          | none => .errs ⟨cfg.tag ++ ".base", []⟩
      | .other => .errs ⟨cfg.tag ++ ".base", []⟩
    validate := fun v =>
      match v with
      | .typed a => (.typed a, none)
      | w => (w, some ⟨cfg.tag ++ ".base", []⟩)
    rules :=
      (match cfg.compare with
       | some cmp => cmpRules cfg cmp
       | none => [])
      ++ extra }

/-- Rule-table lookup with `Object.assign` semantics (later entries win). -/
def Extension.findRule (ext : Extension τ α) (key : String) :
    Option (RuleDef τ α) :=
  lookupLast ext.rules key

/-- Attaching a rule to a schema by calling its method: looks the method up,
runs the declared argument assertion (Joi raises the assertion message as a
configuration error when it fails), and records `(addName, rawArg)`.
No-argument rules record no argument. -/
def Extension.attach (ext : Extension τ α) (key : String)
    (arg : Option (Limit α)) (s : Schema α) : Except String (Schema α) :=
  match ext.findRule key with
  | none => .error "is not a function"
  | some rd =>
      if rd.takesArg then
        if rd.argAssert arg then .ok (s ++ [(rd.addName, arg)])
        else .error "must be a string or Temporal instance"
      else .ok (s ++ [(rd.addName, none)])

/-- Running one attached rule's validator at clock reading `t`. -/
def Extension.runRule (ext : Extension τ α) (t : τ) (v : α)
    (entry : String × Option (Limit α)) : VOut α :=
  match ext.findRule entry.1 with
  | none => .threw
  | some rd =>
      match rd.validate with
      | none => .threw
      | some f => f t v entry.2

/-- Running all attached rules in attachment order, stopping at the first
failure (Joi's default `abortEarly`). -/
def Extension.runRules (ext : Extension τ α) (t : τ) (v : α) :
    Schema α → VOut α
  | [] => .ok v
  | entry :: rest =>
      match ext.runRule t v entry with
      | .ok v' => ext.runRules t v' rest
      | .err e => .err e
      | .threw => .threw

/-- Full validation pipeline for one value at clock reading `t`: coerce,
then the defensive type validate, then the attached rules. -/
def Extension.validateSchema (ext : Extension τ α) (s : Schema α) (t : τ)
    (input : JSValue α) : VOut (JSValue α) :=
  match ext.coerce input with
  | .errs e => .err e
  | .threw => .threw
  | .ok v =>
      match ext.validate v with
      | (_, some e) => .err e
      | (v', none) =>
          match v' with
          | .typed a =>
              match ext.runRules t a s with
              | .ok a' => .ok (.typed a')
              | .err e => .err e
              | .threw => .threw
          | w => .ok w

/-- Three-way integer comparison with the `-1 / 0 / 1` result convention of
the `Temporal.*.compare` functions. -/
def cmp3 (a b : Int) : Int := if a < b then -1 else if b < a then 1 else 0

/-- Lexicographic combination of two three-way comparison results. -/
def lexCmp (c d : Int) : Int := if c = 0 then d else c

/-- ISO calendar date: the fields `Temporal.PlainDate.compare` orders. -/
structure PlainDate where
  year : Int
  month : Int
  day : Int
deriving DecidableEq

/-- Temporal.PlainDate.compare, modelled by its documented semantics:
lexicographic order on the ISO year, month, day fields. -/
def PlainDate.compare (a b : PlainDate) : Int :=
  lexCmp (cmp3 a.year b.year) (lexCmp (cmp3 a.month b.month) (cmp3 a.day b.day))

/-- Time of day, modelled as nanoseconds since midnight;
`Temporal.PlainTime.compare` orders times by their fields, which coincides
with ordering this quantity. -/
structure PlainTime where
  nsOfDay : Int
deriving DecidableEq

/-- Temporal.PlainTime.compare, modelled by its documented semantics. -/
def PlainTime.compare (a b : PlainTime) : Int := cmp3 a.nsOfDay b.nsOfDay

/-- Calendar date with wall-clock time, no timezone. -/
structure PlainDateTime where
  date : PlainDate
  time : PlainTime
deriving DecidableEq

/-- Temporal.PlainDateTime.compare, modelled by its documented semantics:
date fields first, then time fields. -/
def PlainDateTime.compare (a b : PlainDateTime) : Int :=
  lexCmp (PlainDate.compare a.date b.date) (PlainTime.compare a.time b.time)

/-- Timezone-aware date-time, modelled by the data the rules consult: the
exact instant (epoch nanoseconds) and the timezone identifier. -/
structure ZonedDateTime where
  epochNs : Int
  timeZoneId : String
deriving DecidableEq

/-- Temporal.ZonedDateTime.compare, modelled by its documented semantics:
it compares exact instants, not wall-clock fields. -/
def ZonedDateTime.compare (a b : ZonedDateTime) : Int :=
  cmp3 a.epochNs b.epochNs

/-- Exact point on the timeline, as epoch nanoseconds. -/
structure Instant where
  epochNs : Int
deriving DecidableEq

/-- Temporal.Instant.compare, modelled by its documented semantics. -/
def Instant.compare (a b : Instant) : Int := cmp3 a.epochNs b.epochNs

/-- Temporal.Duration, modelled by its ten signed component fields. -/
structure Duration where
  years : Int := 0
  months : Int := 0
  weeks : Int := 0
  days : Int := 0
  hours : Int := 0
  minutes : Int := 0
  seconds : Int := 0
  milliseconds : Int := 0
  microseconds : Int := 0
  nanoseconds : Int := 0
deriving DecidableEq

/-- Temporal.Duration.sign, modelled by its documented semantics: the sign
of the first nonzero component, scanning from the largest unit. -/
def Duration.sign (d : Duration) : Int :=
  if d.years ≠ 0 then Int.sign d.years
  else if d.months ≠ 0 then Int.sign d.months
  else if d.weeks ≠ 0 then Int.sign d.weeks
  else if d.days ≠ 0 then Int.sign d.days
  else if d.hours ≠ 0 then Int.sign d.hours
  else if d.minutes ≠ 0 then Int.sign d.minutes
  else if d.seconds ≠ 0 then Int.sign d.seconds
  else if d.milliseconds ≠ 0 then Int.sign d.milliseconds
  else if d.microseconds ≠ 0 then Int.sign d.microseconds
  else Int.sign d.nanoseconds

/-- Nanoseconds per 24-hour day. -/
def nsPerDay : Int := 86400000000000

/-- Nanosecond count of the fixed-length units of a duration (days and
smaller): independent of any reference date. -/
def Duration.fixedNs (d : Duration) : Int :=
  (((((d.days * 24 + d.hours) * 60 + d.minutes) * 60 + d.seconds) * 1000
      + d.milliseconds) * 1000 + d.microseconds) * 1000 + d.nanoseconds

/-- Total nanosecond length of a duration anchored at a reference date.
Temporal.Duration.compare with a `relativeTo` plain date is modelled
parametrically in the external calendar arithmetic: `calDays ref y m w` is
the day count the calendar units (years, months, weeks) of the duration
span starting at `ref`.  Fixed units never consult `ref`. -/
def Duration.totalNs (calDays : PlainDate → Int → Int → Int → Int)
    (ref : PlainDate) (d : Duration) : Int :=
  calDays ref d.years d.months d.weeks * nsPerDay + d.fixedNs

/-- Temporal.Duration.compare with `relativeTo := ref`, modelled as the
three-way comparison of total nanosecond lengths anchored at `ref`. -/
def Duration.compareAt (calDays : PlainDate → Int → Int → Int → Int)
    (ref : PlainDate) (a b : Duration) : Int :=
  cmp3 (a.totalNs calDays ref) (b.totalNs calDays ref)

/-- Year-month pair, ordered lexicographically by
Temporal.PlainYearMonth.compare. -/
structure PlainYearMonth where
  year : Int
  month : Int
deriving DecidableEq

/-- Temporal.PlainYearMonth.compare, modelled by its documented semantics. -/
def PlainYearMonth.compare (a b : PlainYearMonth) : Int :=
  lexCmp (cmp3 a.year b.year) (cmp3 a.month b.month)

/-- Month-day pair.  Temporal defines no `PlainMonthDay.compare`, and the
config passes no comparator for it. -/
structure PlainMonthDay where
  month : Int
  day : Int
deriving DecidableEq

/-- The `plainDate` descriptor.  External Temporal functions
(`PlainDate.from`, `Temporal.Now.plainDateISO`, `toString`) are parameters;
`nowF t` is the value `Temporal.Now.plainDateISO()` returns when read at
clock instant `t`. -/
def plainDateConfig (parse : String → Option PlainDate) (nowF : τ → PlainDate)
    (toS : PlainDate → String) : TypeConfig τ PlainDate :=
  { name := "plainDate"
    parse := parse
    compare := some fun _ => PlainDate.compare
    now := some nowF
    toStr := toS
    baseMessage :=
      "\x7b\x7b#label\x7d\x7d must be a valid ISO 8601 date string or Temporal.PlainDate" }

/-- The `plainTime` descriptor. -/
def plainTimeConfig (parse : String → Option PlainTime) (nowF : τ → PlainTime)
    (toS : PlainTime → String) : TypeConfig τ PlainTime :=
  { name := "plainTime"
    parse := parse
    compare := some fun _ => PlainTime.compare
    now := some nowF
    toStr := toS
    baseMessage :=
      "\x7b\x7b#label\x7d\x7d must be a valid ISO 8601 time string or Temporal.PlainTime" }

/-- The `plainDateTime` descriptor. -/
def plainDateTimeConfig (parse : String → Option PlainDateTime)
    (nowF : τ → PlainDateTime) (toS : PlainDateTime → String) :
    TypeConfig τ PlainDateTime :=
  { name := "plainDateTime"
    parse := parse
    compare := some fun _ => PlainDateTime.compare
    now := some nowF
    toStr := toS
    baseMessage :=
      "\x7b\x7b#label\x7d\x7d must be a valid ISO 8601 date-time string or Temporal.PlainDateTime" }

/-- The `zonedDateTime` descriptor: comparator over exact instants, no
`now` resolver, and the extra `timezone` messages. -/
def zonedDateTimeConfig (parse : String → Option ZonedDateTime)
    (toS : ZonedDateTime → String) : TypeConfig τ ZonedDateTime :=
  { name := "zonedDateTime"
    parse := parse
    compare := some fun _ => ZonedDateTime.compare
    now := none
    toStr := toS
    baseMessage :=
      "\x7b\x7b#label\x7d\x7d must be a valid ISO 8601 date-time string with timezone or Temporal.ZonedDateTime"
    extraMessages :=
      [("temporal.zonedDateTime.timezone",
        "\x7b\x7b#label\x7d\x7d must be in timezone \x7b#timezone\x7d")] }

/-- Validator of the zonedDateTime `timezone` rule: exact string match on
`value.timeZoneId`, with the zone name in the error context. -/
def timezoneValidate : τ → ZonedDateTime → Option (Limit ZonedDateTime) →
    VOut ZonedDateTime := fun _ v arg =>
  match arg with
  | some (.str tz) =>
      if v.timeZoneId ≠ tz then
        .err ⟨"temporal.zonedDateTime.timezone", [("timezone", tz)]⟩
      else .ok v
  | _ => .threw

/-- The `timezone` extra rule of the zonedDateTime kind. -/
def timezoneRule : List (String × RuleDef τ ZonedDateTime) :=
  [("timezone",
    { addName := "timezone"
      takesArg := true
      argAssert := fun _ => true
      validate := some timezoneValidate })]

/-- The `instant` descriptor: comparator, no `now` resolver. -/
def instantConfig (parse : String → Option Instant) (toS : Instant → String) :
    TypeConfig τ Instant :=
  { name := "instant"
    parse := parse
    compare := some fun _ => Instant.compare
    now := none
    toStr := toS
    baseMessage :=
      "\x7b\x7b#label\x7d\x7d must be a valid ISO 8601 string with offset or Temporal.Instant" }

/-- The `duration` descriptor: its comparator reads the ambient clock on
every call — `relativeTo` is `Temporal.Now.plainDateISO()` evaluated inside
the comparison, so the reference date is `todayF t` for the call instant
`t`.  All four comparison messages are overridden. -/
def durationConfig (calDays : PlainDate → Int → Int → Int → Int)
    (todayF : τ → PlainDate) (parse : String → Option Duration)
    (toS : Duration → String) : TypeConfig τ Duration :=
  { name := "duration"
    parse := parse
    compare := some fun t a b => Duration.compareAt calDays (todayF t) a b
    compareMessages :=
      { min := some "\x7b\x7b#label\x7d\x7d must be at least \x7b#limit\x7d"
        max := some "\x7b\x7b#label\x7d\x7d must be at most \x7b#limit\x7d"
        gt := some "\x7b\x7b#label\x7d\x7d must be more than \x7b#limit\x7d"
        lt := some "\x7b\x7b#label\x7d\x7d must be less than \x7b#limit\x7d" }
    now := none
    toStr := toS
    baseMessage :=
      "\x7b\x7b#label\x7d\x7d must be a valid ISO 8601 duration string or Temporal.Duration"
    extraMessages :=
      [("temporal.duration.positive",
        "\x7b\x7b#label\x7d\x7d must be a positive duration"),
       ("temporal.duration.negative",
        "\x7b\x7b#label\x7d\x7d must be a negative duration"),
       ("temporal.duration.nonzero",
        "\x7b\x7b#label\x7d\x7d must not be zero")] }

/-- Validator of the duration `positive` rule. -/
def positiveValidate : τ → Duration → Option (Limit Duration) → VOut Duration :=
  fun _ v _ =>
    if v.sign ≤ 0 then .err ⟨"temporal.duration.positive", []⟩ else .ok v

/-- Validator of the duration `negative` rule. -/
def negativeValidate : τ → Duration → Option (Limit Duration) → VOut Duration :=
  fun _ v _ =>
    if v.sign ≥ 0 then .err ⟨"temporal.duration.negative", []⟩ else .ok v

/-- Validator of the duration `nonzero` rule. -/
def nonzeroValidate : τ → Duration → Option (Limit Duration) → VOut Duration :=
  fun _ v _ =>
    if v.sign = 0 then .err ⟨"temporal.duration.nonzero", []⟩ else .ok v

/-- The duration kind's extra sign rules: zero-argument rules inspecting
`value.sign`. -/
def durationExtraRules : List (String × RuleDef τ Duration) :=
  [("positive",
    { addName := "positive", takesArg := false,
      validate := some positiveValidate }),
   ("negative",
    { addName := "negative", takesArg := false,
      validate := some negativeValidate }),
   ("nonzero",
    { addName := "nonzero", takesArg := false,
      validate := some nonzeroValidate })]

/-- The `plainYearMonth` descriptor: comparator, no `now` resolver. -/
def plainYearMonthConfig (parse : String → Option PlainYearMonth)
    (toS : PlainYearMonth → String) : TypeConfig τ PlainYearMonth :=
  { name := "plainYearMonth"
    parse := parse
    compare := some fun _ => PlainYearMonth.compare
    now := none
    toStr := toS
    baseMessage :=
      "\x7b\x7b#label\x7d\x7d must be a valid ISO 8601 year-month string or Temporal.PlainYearMonth" }

/-- The `plainMonthDay` descriptor: no comparator, no `now` resolver, no
extra rules. -/
def plainMonthDayConfig (parse : String → Option PlainMonthDay)
    (toS : PlainMonthDay → String) : TypeConfig τ PlainMonthDay :=
  { name := "plainMonthDay"
    parse := parse
    compare := none
    now := none
    toStr := toS
    baseMessage :=
      "\x7b\x7b#label\x7d\x7d must be a valid ISO 8601 month-day string or Temporal.PlainMonthDay" }

/-- The kind names of the exported registry, in source order. -/
def registryNames : List String :=
  ["plainDate", "plainTime", "plainDateTime", "zonedDateTime", "instant",
   "duration", "plainYearMonth", "plainMonthDay"]

/-- The error message of the import-time Temporal availability check. -/
def temporalRequiredMessage : String :=
  "joi-temporal requires the Temporal API. Use a supported runtime (Node 22+ with --harmony-temporal, Chrome 144+, Firefox 139+) or install a polyfill (temporal-polyfill, @js-temporal/polyfill)."

/-- Module initialization: the one-time startup check that the Temporal
capability exists, performed before any extension is constructed; on
success the registry of extension factories is published. -/
def moduleInit (temporalDefined : Bool) : Except String (List String) :=
  if temporalDefined then .ok registryNames else .error temporalRequiredMessage

/-! Concrete instances used to exercise the theorems: a clock modelled as a
natural number, a test `Temporal.Now.plainDateISO` reading, and small
parsers standing for the external `Temporal.*.from` functions. -/

/-- Test clock: at instant `t` the current ISO date is January 1 of year `t`. -/
def testNowF : Nat → PlainDate := fun t => ⟨Int.ofNat t, 1, 1⟩

/-- Test canonical text form of a plain date. -/
def testPDToS : PlainDate → String :=
  fun d => toString d.year ++ "-" ++ toString d.month ++ "-" ++ toString d.day

/-- Test parser for plain dates: accepts exactly one literal. -/
def testPDParse : String → Option PlainDate :=
  fun s => if s = "2021-01-15" then some ⟨2021, 1, 15⟩ else none

/-- Test plainDate descriptor instance. -/
def testPDConfig : TypeConfig Nat PlainDate :=
  plainDateConfig testPDParse testNowF testPDToS

/-- Test plainDate extension instance. -/
def testPDExt : Extension Nat PlainDate := makeExtension testPDConfig []

/-- The names of the six comparison-family rules. -/
def cmpRuleNames : List String := ["min", "max", "gt", "lt", "gte", "lte"]

lemma lookupLast_eq_none {β : Type} {l : List (String × β)} {k : String}
    (h : ∀ p ∈ l, p.1 ≠ k) : lookupLast l k = none := by
  induction l with
  | nil => rfl
  | cons a rest ih =>
      have ha : a.1 ≠ k := h a (by simp)
      have hrest : ∀ p ∈ rest, p.1 ≠ k := fun p hp => h p (by simp [hp])
      simp [lookupLast, ih hrest, ha]

lemma lookupLast_append {β : Type} {l₁ l₂ : List (String × β)} {k : String}
    (h : ∀ p ∈ l₂, p.1 ≠ k) :
    lookupLast (l₁ ++ l₂) k = lookupLast l₁ k := by
  induction l₁ with
  | nil => simpa [lookupLast] using lookupLast_eq_none h
  | cons a rest ih => simp [lookupLast, ih]

lemma findRule_makeExtension (cfg : TypeConfig τ α)
    (extra : List (String × RuleDef τ α)) (cmp : τ → α → α → Int)
    (hcmp : cfg.compare = some cmp) {key : String} (hkey : key ∈ cmpRuleNames)
    (hx : ∀ p ∈ extra, p.1 ∉ cmpRuleNames) :
    (makeExtension cfg extra).findRule key = lookupLast (cmpRules cfg cmp) key := by
  have h : ∀ p ∈ extra, p.1 ≠ key := by
    intro p hp he
    exact hx p hp (he ▸ hkey)
  simp only [Extension.findRule, makeExtension, hcmp]
  exact lookupLast_append h

lemma findRule_min (cfg : TypeConfig τ α)
    (extra : List (String × RuleDef τ α)) (cmp : τ → α → α → Int)
    (hcmp : cfg.compare = some cmp)
    (hx : ∀ p ∈ extra, p.1 ∉ cmpRuleNames) :
    (makeExtension cfg extra).findRule "min" =
      some (cmpRuleDef cfg cmp "min" (fun c => c ≥ 0)) := by
  rw [findRule_makeExtension cfg extra cmp hcmp (by simp [cmpRuleNames]) hx]
  rfl

lemma findRule_max (cfg : TypeConfig τ α)
    (extra : List (String × RuleDef τ α)) (cmp : τ → α → α → Int)
    (hcmp : cfg.compare = some cmp)
    (hx : ∀ p ∈ extra, p.1 ∉ cmpRuleNames) :
    (makeExtension cfg extra).findRule "max" =
      some (cmpRuleDef cfg cmp "max" (fun c => c ≤ 0)) := by
  rw [findRule_makeExtension cfg extra cmp hcmp (by simp [cmpRuleNames]) hx]
  rfl

lemma findRule_gt (cfg : TypeConfig τ α)
    (extra : List (String × RuleDef τ α)) (cmp : τ → α → α → Int)
    (hcmp : cfg.compare = some cmp)
    (hx : ∀ p ∈ extra, p.1 ∉ cmpRuleNames) :
    (makeExtension cfg extra).findRule "gt" =
      some (cmpRuleDef cfg cmp "gt" (fun c => c > 0)) := by
  rw [findRule_makeExtension cfg extra cmp hcmp (by simp [cmpRuleNames]) hx]
  rfl

lemma findRule_lt (cfg : TypeConfig τ α)
    (extra : List (String × RuleDef τ α)) (cmp : τ → α → α → Int)
    (hcmp : cfg.compare = some cmp)
    (hx : ∀ p ∈ extra, p.1 ∉ cmpRuleNames) :
    (makeExtension cfg extra).findRule "lt" =
      some (cmpRuleDef cfg cmp "lt" (fun c => c < 0)) := by
  rw [findRule_makeExtension cfg extra cmp hcmp (by simp [cmpRuleNames]) hx]
  rfl

lemma findRule_gte (cfg : TypeConfig τ α)
    (extra : List (String × RuleDef τ α)) (cmp : τ → α → α → Int)
    (hcmp : cfg.compare = some cmp)
    (hx : ∀ p ∈ extra, p.1 ∉ cmpRuleNames) :
    (makeExtension cfg extra).findRule "gte" =
      some { addName := "min", takesArg := true, argAssert := limitAssert,
             validate := none } := by
  rw [findRule_makeExtension cfg extra cmp hcmp (by simp [cmpRuleNames]) hx]
  rfl

lemma findRule_lte (cfg : TypeConfig τ α)
    (extra : List (String × RuleDef τ α)) (cmp : τ → α → α → Int)
    (hcmp : cfg.compare = some cmp)
    (hx : ∀ p ∈ extra, p.1 ∉ cmpRuleNames) :
    (makeExtension cfg extra).findRule "lte" =
      some { addName := "max", takesArg := true, argAssert := limitAssert,
             validate := none } := by
  rw [findRule_makeExtension cfg extra cmp hcmp (by simp [cmpRuleNames]) hx]
  rfl

lemma runRule_cmp (cfg : TypeConfig τ α)
    (extra : List (String × RuleDef τ α)) (cmp : τ → α → α → Int)
    (rule : String) (check : Int → Bool)
    (hfind : (makeExtension cfg extra).findRule rule =
      some (cmpRuleDef cfg cmp rule check))
    (t : τ) (v L : α) :
    (makeExtension cfg extra).runRule t v (rule, some (.inst L)) =
      (if check (cmp t v L) then .ok v
       else .err ⟨cfg.tag ++ "." ++ rule, [("limit", cfg.toStr L)]⟩) := by
  simp [Extension.runRule, hfind, cmpRuleDef, cmpRuleValidate, resolveLimit]

/-- C1: the synthesized coerce passes null/undefined and already-typed
values through unchanged; any other non-string fails with
`temporal.<name>.base`; a string is parsed, with success replacing the
value by the parsed result and any parse failure mapped to the same base
error code. -/
theorem coerce_passthrough_and_parse (cfg : TypeConfig τ α)
    (extra : List (String × RuleDef τ α)) :
    ((makeExtension cfg extra).coerce .nullish = .ok .nullish) ∧
    (∀ a : α, (makeExtension cfg extra).coerce (.typed a) = .ok (.typed a)) ∧
    ((makeExtension cfg extra).coerce .other =
      .errs ⟨"temporal." ++ cfg.name ++ ".base", []⟩) ∧
    (∀ s a, cfg.parse s = some a →
      (makeExtension cfg extra).coerce (.str s) = .ok (.typed a)) ∧
    (∀ s, cfg.parse s = none →
      (makeExtension cfg extra).coerce (.str s) =
        .errs ⟨"temporal." ++ cfg.name ++ ".base", []⟩) := by
  refine ⟨rfl, fun a => rfl, rfl, fun s a h => ?_, fun s h => ?_⟩
  · simp [makeExtension, h]
  · simp [makeExtension, h, TypeConfig.tag]

/-- Witness for C1 at the test plainDate kind: a parsable string is
replaced by its parse, an unparsable one fails with the base code. -/
theorem coerce_passthrough_and_parse_witness :
    testPDParse "2021-01-15" = some ⟨2021, 1, 15⟩ ∧
    testPDExt.coerce (.str "2021-01-15") = .ok (.typed ⟨2021, 1, 15⟩) ∧
    testPDParse "foo" = none ∧
    testPDExt.coerce (.str "foo") = .errs ⟨"temporal.plainDate.base", []⟩ :=
  ⟨rfl,
   (coerce_passthrough_and_parse testPDConfig []).2.2.2.1 "2021-01-15" ⟨2021, 1, 15⟩ rfl,
   rfl,
   (coerce_passthrough_and_parse testPDConfig []).2.2.2.2 "foo" rfl⟩

/-- C2: each primitive comparison rule accepts exactly according to its
tie-break predicate on the three-way comparison result, and with a value
used as its own limit, `min` and `max` pass while `gt` and `lt` fail. -/
theorem cmp_rule_tiebreak (cfg : TypeConfig τ α)
    (extra : List (String × RuleDef τ α)) (cmp : τ → α → α → Int)
    (hcmp : cfg.compare = some cmp)
    (hx : ∀ p ∈ extra, p.1 ∉ cmpRuleNames) (t : τ) (v L : α) :
    ((makeExtension cfg extra).runRule t v ("min", some (.inst L)) = .ok v
        ↔ 0 ≤ cmp t v L) ∧
    ((makeExtension cfg extra).runRule t v ("max", some (.inst L)) = .ok v
        ↔ cmp t v L ≤ 0) ∧
    ((makeExtension cfg extra).runRule t v ("gt", some (.inst L)) = .ok v
        ↔ 0 < cmp t v L) ∧
    ((makeExtension cfg extra).runRule t v ("lt", some (.inst L)) = .ok v
        ↔ cmp t v L < 0) ∧
    (cmp t v v = 0 →
      (makeExtension cfg extra).runRule t v ("min", some (.inst v)) = .ok v ∧
      (makeExtension cfg extra).runRule t v ("max", some (.inst v)) = .ok v ∧
      (makeExtension cfg extra).runRule t v ("gt", some (.inst v)) =
        .err ⟨cfg.tag ++ ".gt", [("limit", cfg.toStr v)]⟩ ∧
      (makeExtension cfg extra).runRule t v ("lt", some (.inst v)) =
        .err ⟨cfg.tag ++ ".lt", [("limit", cfg.toStr v)]⟩) := by
  have hmin := runRule_cmp cfg extra cmp "min" (fun c => c ≥ 0)
    (findRule_min cfg extra cmp hcmp hx) t v
  have hmax := runRule_cmp cfg extra cmp "max" (fun c => c ≤ 0)
    (findRule_max cfg extra cmp hcmp hx) t v
  have hgt := runRule_cmp cfg extra cmp "gt" (fun c => c > 0)
    (findRule_gt cfg extra cmp hcmp hx) t v
  have hlt := runRule_cmp cfg extra cmp "lt" (fun c => c < 0)
    (findRule_lt cfg extra cmp hcmp hx) t v
  refine ⟨?_, ?_, ?_, ?_, fun h0 => ?_⟩
  · rw [hmin L]; by_cases h : 0 ≤ cmp t v L <;> simp [h, ge_iff_le]
  · rw [hmax L]; by_cases h : cmp t v L ≤ 0 <;> simp [h]
  · rw [hgt L]; by_cases h : 0 < cmp t v L <;> simp [h, gt_iff_lt]
  · rw [hlt L]; by_cases h : cmp t v L < 0 <;> simp [h]
  · exact ⟨by rw [hmin v]; simp [h0],
           by rw [hmax v]; simp [h0],
           by rw [hgt v]; simp [h0, String.append_assoc],
           by rw [hlt v]; simp [h0, String.append_assoc]⟩

/-- Witness for C2 at the test plainDate kind: `min` passes for a value
after the limit, and at a self-limit `min` passes while `lt` fails. -/
theorem cmp_rule_tiebreak_witness :
    (testPDExt.runRule 0 ⟨5, 1, 1⟩ ("min", some (.inst ⟨4, 1, 1⟩)) =
      .ok ⟨5, 1, 1⟩) ∧
    (testPDExt.runRule 0 ⟨5, 1, 1⟩ ("min", some (.inst ⟨5, 1, 1⟩)) =
      .ok ⟨5, 1, 1⟩) ∧
    (testPDExt.runRule 0 ⟨5, 1, 1⟩ ("lt", some (.inst ⟨5, 1, 1⟩)) =
      .err ⟨"temporal.plainDate.lt", [("limit", "5-1-1")]⟩) :=
  ⟨(cmp_rule_tiebreak testPDConfig [] (fun _ => PlainDate.compare) rfl
      (by simp) 0 ⟨5, 1, 1⟩ ⟨4, 1, 1⟩).1.mpr (by decide),
   ((cmp_rule_tiebreak testPDConfig [] (fun _ => PlainDate.compare) rfl
      (by simp) 0 ⟨5, 1, 1⟩ ⟨5, 1, 1⟩).2.2.2.2 (by decide)).1,
   ((cmp_rule_tiebreak testPDConfig [] (fun _ => PlainDate.compare) rfl
      (by simp) 0 ⟨5, 1, 1⟩ ⟨5, 1, 1⟩).2.2.2.2 (by decide)).2.2.2⟩

/-- C3: a `"now"` limit on a kind with a current-value resolver is carried
as data in the compiled schema and resolved by reading the clock at each
validate() call: on the one compiled schema `min("now")`, the outcome at
call instant `t` is determined by `nowF t`, and on the test instance two
calls at different instants give different pass/fail outcomes for the same
fixed input value. -/
theorem now_limit_resolved_per_call :
    (∀ (parse : String → Option PlainDate) (nowF : Nat → PlainDate)
        (toS : PlainDate → String) (t : Nat) (v : PlainDate),
      (makeExtension (plainDateConfig parse nowF toS) []).validateSchema
          [("min", some (.str "now"))] t (.typed v) =
        (if 0 ≤ PlainDate.compare v (nowF t) then .ok (.typed v)
         else .err ⟨"temporal.plainDate.min", [("limit", toS (nowF t))]⟩)) ∧
    (testPDExt.attach "min" (some (.str "now")) [] =
      .ok [("min", some (.str "now"))]) ∧
    (testPDExt.validateSchema [("min", some (.str "now"))] 4 (.typed ⟨5, 1, 1⟩) =
      .ok (.typed ⟨5, 1, 1⟩)) ∧
    (testPDExt.validateSchema [("min", some (.str "now"))] 6 (.typed ⟨5, 1, 1⟩) =
      .err ⟨"temporal.plainDate.min", [("limit", "6-1-1")]⟩) := by
  refine ⟨fun parse nowF toS t v => ?_, rfl, by decide, by decide⟩
  have hf := findRule_min (plainDateConfig parse nowF toS) []
    (fun _ => PlainDate.compare) rfl (by simp)
  simp only [Extension.validateSchema, makeExtension, Extension.runRules,
    Extension.runRule] at hf ⊢
  rw [hf]
  simp only [cmpRuleDef, cmpRuleValidate, resolveLimit, plainDateConfig,
    TypeConfig.tag]
  by_cases h : 0 ≤ PlainDate.compare v (nowF t) <;>
    simp [h, Extension.runRules]

/-- C4: the `gte` method is a pure alias of `min` and `lte` of `max`:
attachment produces the identical schema entry (the delegate's rule name
with the same raw argument and the same argument assertion), so validation
outcomes coincide, and a failure of the attached rule reports the `min`
code. -/
theorem gte_lte_alias (τ α : Type) (cfg : TypeConfig τ α)
    (extra : List (String × RuleDef τ α)) (cmp : τ → α → α → Int)
    (hcmp : cfg.compare = some cmp)
    (hx : ∀ p ∈ extra, p.1 ∉ cmpRuleNames) :
    (∀ (arg : Option (Limit α)) (s : Schema α),
      (makeExtension cfg extra).attach "gte" arg s =
        (makeExtension cfg extra).attach "min" arg s) ∧
    (∀ (arg : Option (Limit α)) (s : Schema α),
      (makeExtension cfg extra).attach "lte" arg s =
        (makeExtension cfg extra).attach "max" arg s) ∧
    (∀ (arg : Option (Limit α)) (s s' : Schema α),
      (makeExtension cfg extra).attach "gte" arg s = .ok s' →
        s' = s ++ [("min", arg)]) ∧
    (∀ (t : τ) (v L : α), ¬ 0 ≤ cmp t v L →
      (makeExtension cfg extra).runRule t v ("min", some (.inst L)) =
        .err ⟨cfg.tag ++ ".min", [("limit", cfg.toStr L)]⟩) := by
  have hgte := findRule_gte cfg extra cmp hcmp hx
  have hlte := findRule_lte cfg extra cmp hcmp hx
  have hmin := findRule_min cfg extra cmp hcmp hx
  have hmax := findRule_max cfg extra cmp hcmp hx
  refine ⟨fun arg s => ?_, fun arg s => ?_, fun arg s s' h => ?_,
    fun t v L h => ?_⟩
  · simp [Extension.attach, hgte, hmin, cmpRuleDef]
  · simp [Extension.attach, hlte, hmax, cmpRuleDef]
  · simp only [Extension.attach, hgte] at h
    by_cases ha : limitAssert arg = true
    · simp [ha] at h; exact h.symm
    · simp [ha] at h
  · rw [runRule_cmp cfg extra cmp "min" (fun c => c ≥ 0) hmin t v L]
    simp [h, String.append_assoc]

/-- Witness for C4 at the test plainDate kind: attaching `gte` equals
attaching `min`, records a `min` entry, and a failing `min`-named rule
reports the `min` code. -/
theorem gte_lte_alias_witness :
    (testPDExt.attach "gte" (some (.str "2021-01-15")) [] =
      testPDExt.attach "min" (some (.str "2021-01-15")) []) ∧
    (testPDExt.runRule 3 ⟨5, 1, 1⟩ ("min", some (.inst ⟨6, 1, 1⟩)) =
      .err ⟨"temporal.plainDate.min", [("limit", "6-1-1")]⟩) :=
  ⟨(gte_lte_alias Nat PlainDate testPDConfig [] (fun _ => PlainDate.compare)
      rfl (by simp)).1 (some (.str "2021-01-15")) [],
   (gte_lte_alias Nat PlainDate testPDConfig [] (fun _ => PlainDate.compare)
      rfl (by simp)).2.2.2 3 ⟨5, 1, 1⟩ ⟨6, 1, 1⟩ (by decide)⟩

/-- C5: the plainMonthDay descriptor has no comparator, so its synthesized
rule table is empty — none of `min`, `max`, `gt`, `lt`, `gte`, `lte`
exists on that kind — while every descriptor with a comparator gets all
six comparison rules. -/
theorem monthday_no_ordering_rules (τ α : Type) :
    (∀ (parse : String → Option PlainMonthDay) (toS : PlainMonthDay → String),
      (makeExtension (plainMonthDayConfig (τ := τ) parse toS) []).rules = [] ∧
      (∀ key : String,
        (makeExtension (plainMonthDayConfig (τ := τ) parse toS) []).findRule
          key = none)) ∧
    (∀ (cfg : TypeConfig τ α) (extra : List (String × RuleDef τ α))
        (cmp : τ → α → α → Int), cfg.compare = some cmp →
      (∀ p ∈ extra, p.1 ∉ cmpRuleNames) →
      ∀ key ∈ cmpRuleNames,
        ((makeExtension cfg extra).findRule key).isSome = true) := by
  refine ⟨fun parse toS => ⟨rfl, fun key => rfl⟩,
    fun cfg extra cmp hcmp hx key hk => ?_⟩
  simp only [cmpRuleNames, List.mem_cons, List.not_mem_nil, or_false] at hk
  rcases hk with rfl | rfl | rfl | rfl | rfl | rfl
  · rw [findRule_min cfg extra cmp hcmp hx]; rfl
  · rw [findRule_max cfg extra cmp hcmp hx]; rfl
  · rw [findRule_gt cfg extra cmp hcmp hx]; rfl
  · rw [findRule_lt cfg extra cmp hcmp hx]; rfl
  · rw [findRule_gte cfg extra cmp hcmp hx]; rfl
  · rw [findRule_lte cfg extra cmp hcmp hx]; rfl

/-- Test parser for month-day values: accepts exactly one literal. -/
def testMDParse : String → Option PlainMonthDay :=
  fun s => if s = "12-25" then some ⟨12, 25⟩ else none

/-- Test plainMonthDay extension instance. -/
def testMDExt : Extension Nat PlainMonthDay :=
  makeExtension (plainMonthDayConfig testMDParse (fun _ => "12-25")) []

/-- Witness for C5: the test plainMonthDay extension has an empty rule
table and no `min` rule, while the test plainDate extension has `gte`. -/
theorem monthday_no_ordering_rules_witness :
    testMDExt.rules = [] ∧ testMDExt.findRule "min" = none ∧
    (testPDExt.findRule "gte").isSome = true :=
  ⟨((monthday_no_ordering_rules Nat PlainDate).1 testMDParse
      (fun _ => "12-25")).1,
   ((monthday_no_ordering_rules Nat PlainDate).1 testMDParse
      (fun _ => "12-25")).2 "min",
   (monthday_no_ordering_rules Nat PlainDate).2 testPDConfig []
     (fun _ => PlainDate.compare) rfl (by simp) "gte"
     (by simp [cmpRuleNames])⟩

/-- Test parser for instants: rejects everything (in particular `"now"`,
which `Temporal.Instant.from` cannot parse). -/
def testInstParse : String → Option Instant := fun _ => none

/-- Test instant extension instance (a kind without `resolveCurrent`). -/
def testInstExt : Extension Nat Instant :=
  makeExtension (instantConfig testInstParse (fun i => toString i.epochNs)) []

/-- C6 counterexample: on the instant kind (no `resolveCurrent`), the limit
`"now"` passes the attachment-time argument assertion — attachment
succeeds and records the raw string — and the parse failure instead
surfaces at validate() time as an uncaught exception.  This refutes the
claim that an unparseable string limit is rejected at attachment time
rather than at validate() time. -/
theorem limit_parse_attach_counterexample :
    (testInstExt.attach "min" (some (.str "now")) [] =
      .ok [("min", some (.str "now"))]) ∧
    (testInstExt.runRule 0 ⟨0⟩ ("min", some (.str "now")) = .threw) :=
  ⟨rfl, rfl⟩

/-- C6 amended: the attachment-time assertion checks only that the limit is
a string or an instance of the kind, so every string limit is accepted at
attachment time; a string limit that is not resolved through the `"now"`
sentinel and that `parse` rejects makes the parse exception escape at
validate() time (it is not caught and not a structured error). -/
theorem limit_assert_and_parse_timing (τ α : Type) (cfg : TypeConfig τ α)
    (extra : List (String × RuleDef τ α)) (cmp : τ → α → α → Int)
    (hcmp : cfg.compare = some cmp)
    (hx : ∀ p ∈ extra, p.1 ∉ cmpRuleNames) :
    (∀ (str : String) (s : Schema α),
      (makeExtension cfg extra).attach "min" (some (.str str)) s =
        .ok (s ++ [("min", some (.str str))])) ∧
    (∀ (t : τ) (v : α) (str : String),
      (cfg.now = none ∨ str ≠ "now") → cfg.parse str = none →
      (makeExtension cfg extra).runRule t v ("min", some (.str str)) =
        .threw) := by
  have hmin := findRule_min cfg extra cmp hcmp hx
  refine ⟨fun str s => ?_, fun t v str h hp => ?_⟩
  · simp [Extension.attach, hmin, cmpRuleDef, limitAssert]
  · simp only [Extension.runRule, hmin, cmpRuleDef, cmpRuleValidate,
      resolveLimit]
    rcases h with hn | hs
    · simp [hn, hp]
    · cases hnow : cfg.now with
      | none => simp [hp]
      | some nf => simp [hs, hp]

/-- Witness for the amended C6 at the test instant kind: `"now"` is
accepted at attachment and the rule throws at validate() time. -/
theorem limit_assert_and_parse_timing_witness :
    (testInstExt.attach "min" (some (.str "now")) [] =
      .ok [("min", some (.str "now"))]) ∧
    (testInstExt.runRule 3 ⟨7⟩ ("min", some (.str "now")) = .threw) :=
  ⟨by
    have h := (limit_assert_and_parse_timing Nat Instant
      (instantConfig testInstParse (fun i => toString i.epochNs)) []
      (fun _ => Instant.compare) rfl (by simp)).1 "now" []
    simpa [testInstExt] using h,
   (limit_assert_and_parse_timing Nat Instant
      (instantConfig testInstParse (fun i => toString i.epochNs)) []
      (fun _ => Instant.compare) rfl (by simp)).2 3 ⟨7⟩ "now"
      (Or.inl rfl) rfl⟩

lemma durationExtraRules_disjoint (τ : Type) :
    ∀ p ∈ (durationExtraRules : List (String × RuleDef τ Duration)),
      p.1 ∉ cmpRuleNames := by
  intro p hp
  simp only [durationExtraRules, List.mem_cons, List.not_mem_nil,
    or_false] at hp
  rcases hp with rfl | rfl | rfl <;> simp [cmpRuleNames]

lemma totalNs_of_fixed_units (calDays : PlainDate → Int → Int → Int → Int)
    (hcal : ∀ ref, calDays ref 0 0 0 = 0) (ref : PlainDate) (d : Duration)
    (h : d.years = 0 ∧ d.months = 0 ∧ d.weeks = 0) :
    d.totalNs calDays ref = d.fixedNs := by
  obtain ⟨h1, h2, h3⟩ := h
  simp [Duration.totalNs, h1, h2, h3, hcal]

/-- C7: for duration values and limits with only fixed units (no years,
months or weeks), every comparison rule's outcome is the same at any two
call instants — the reference date cancels out — and the duration
comparator anchors each call to the current date read at that call's
instant (`relativeTo` is resolved fresh per comparison). -/
theorem duration_fixed_units_independent (τ : Type)
    (calDays : PlainDate → Int → Int → Int → Int)
    (hcal : ∀ ref, calDays ref 0 0 0 = 0)
    (todayF : τ → PlainDate) (parse : String → Option Duration)
    (toS : Duration → String) (t₁ t₂ : τ) (v L : Duration)
    (hv : v.years = 0 ∧ v.months = 0 ∧ v.weeks = 0)
    (hL : L.years = 0 ∧ L.months = 0 ∧ L.weeks = 0)
    (rule : String) (hrule : rule ∈ ["min", "max", "gt", "lt"]) :
    ((makeExtension (durationConfig calDays todayF parse toS)
        durationExtraRules).runRule t₁ v (rule, some (.inst L)) =
      (makeExtension (durationConfig calDays todayF parse toS)
        durationExtraRules).runRule t₂ v (rule, some (.inst L))) ∧
    ((durationConfig calDays todayF parse toS).compare =
      some fun t a b => Duration.compareAt calDays (todayF t) a b) := by
  have key : ∀ t : τ, Duration.compareAt calDays (todayF t) v L =
      cmp3 v.fixedNs L.fixedNs := by
    intro t
    rw [Duration.compareAt, totalNs_of_fixed_units calDays hcal _ v hv,
      totalNs_of_fixed_units calDays hcal _ L hL]
  refine ⟨?_, rfl⟩
  set cfg := durationConfig (τ := τ) calDays todayF parse toS with hcfg
  have hcmp : cfg.compare =
      some fun t a b => Duration.compareAt calDays (todayF t) a b := rfl
  have hx := durationExtraRules_disjoint τ
  simp only [List.mem_cons, List.not_mem_nil, or_false] at hrule
  rcases hrule with rfl | rfl | rfl | rfl
  · rw [runRule_cmp cfg durationExtraRules _ "min" (fun c => c ≥ 0)
        (findRule_min cfg durationExtraRules _ hcmp hx) t₁ v L,
      runRule_cmp cfg durationExtraRules _ "min" (fun c => c ≥ 0)
        (findRule_min cfg durationExtraRules _ hcmp hx) t₂ v L]
    simp only [key]
  · rw [runRule_cmp cfg durationExtraRules _ "max" (fun c => c ≤ 0)
        (findRule_max cfg durationExtraRules _ hcmp hx) t₁ v L,
      runRule_cmp cfg durationExtraRules _ "max" (fun c => c ≤ 0)
        (findRule_max cfg durationExtraRules _ hcmp hx) t₂ v L]
    simp only [key]
  · rw [runRule_cmp cfg durationExtraRules _ "gt" (fun c => c > 0)
        (findRule_gt cfg durationExtraRules _ hcmp hx) t₁ v L,
      runRule_cmp cfg durationExtraRules _ "gt" (fun c => c > 0)
        (findRule_gt cfg durationExtraRules _ hcmp hx) t₂ v L]
    simp only [key]
  · rw [runRule_cmp cfg durationExtraRules _ "lt" (fun c => c < 0)
        (findRule_lt cfg durationExtraRules _ hcmp hx) t₁ v L,
      runRule_cmp cfg durationExtraRules _ "lt" (fun c => c < 0)
        (findRule_lt cfg durationExtraRules _ hcmp hx) t₂ v L]
    simp only [key]

/-- Test calendar arithmetic: a fixed day count per calendar unit. -/
def testCalDays : PlainDate → Int → Int → Int → Int :=
  fun _ y m w => 400 * y + 30 * m + 7 * w

/-- Test duration extension instance. -/
def testDurExt : Extension Nat Duration :=
  makeExtension
    (durationConfig testCalDays testNowF (fun _ => none) (fun _ => "PT"))
    durationExtraRules

/-- Witness for C7: a 2-day value against a 1-day minimum gives the same
outcome at call instants 0 and 7. -/
theorem duration_fixed_units_independent_witness :
    testDurExt.runRule 0 { days := 2 } ("min", some (.inst { days := 1 })) =
      testDurExt.runRule 7 { days := 2 } ("min", some (.inst { days := 1 })) :=
  (duration_fixed_units_independent Nat testCalDays
    (fun ref => by simp [testCalDays]) testNowF (fun _ => none) (fun _ => "PT")
    0 7 { days := 2 } { days := 1 } ⟨rfl, rfl, rfl⟩ ⟨rfl, rfl, rfl⟩
    "min" (by simp)).1

/-- C8: a failing comparison rule raises the code
`temporal.<name>.<rule>` with a context whose `limit` entry is the
canonical text form of the resolved limit; for a `"now"` limit the
resolved limit is the value of `resolveCurrent` read at the call instant,
not the literal token. -/
theorem cmp_failure_error_context (τ α : Type) (cfg : TypeConfig τ α)
    (extra : List (String × RuleDef τ α)) (cmp : τ → α → α → Int)
    (hcmp : cfg.compare = some cmp)
    (hx : ∀ p ∈ extra, p.1 ∉ cmpRuleNames)
    (rule : String) (check : Int → Bool) (hrc : (rule, check) ∈ CHECKS)
    (t : τ) (v : α) (l : Limit α) (lim : α)
    (hres : resolveLimit cfg t l = some lim)
    (hfail : check (cmp t v lim) = false) :
    ((makeExtension cfg extra).runRule t v (rule, some l) =
      .err ⟨"temporal." ++ cfg.name ++ "." ++ rule,
            [("limit", cfg.toStr lim)]⟩) ∧
    (∀ nf : τ → α, l = .str "now" → cfg.now = some nf → lim = nf t) := by
  constructor
  · simp only [CHECKS, List.mem_cons, List.not_mem_nil, or_false,
      Prod.mk.injEq] at hrc
    rcases hrc with ⟨rfl, rfl⟩ | ⟨rfl, rfl⟩ | ⟨rfl, rfl⟩ | ⟨rfl, rfl⟩
    · have hf : ¬ 0 ≤ cmp t v lim := by simpa using hfail
      simp [Extension.runRule, findRule_min cfg extra cmp hcmp hx,
        cmpRuleDef, cmpRuleValidate, hres, hf, TypeConfig.tag]
    · have hf : ¬ cmp t v lim ≤ 0 := by simpa using hfail
      simp [Extension.runRule, findRule_max cfg extra cmp hcmp hx,
        cmpRuleDef, cmpRuleValidate, hres, hf, TypeConfig.tag]
    · have hf : ¬ 0 < cmp t v lim := by simpa using hfail
      simp [Extension.runRule, findRule_gt cfg extra cmp hcmp hx,
        cmpRuleDef, cmpRuleValidate, hres, hf, TypeConfig.tag]
    · have hf : ¬ cmp t v lim < 0 := by simpa using hfail
      simp [Extension.runRule, findRule_lt cfg extra cmp hcmp hx,
        cmpRuleDef, cmpRuleValidate, hres, hf, TypeConfig.tag]
  · intro nf hl hnow
    subst hl
    simp [resolveLimit, hnow] at hres
    exact hres.symm

/-- Witness for C8 at the test plainDate kind: a value before a `"now"`
minimum at instant 6 fails with the `min` code and the freshly resolved
current date's text in the limit context. -/
theorem cmp_failure_error_context_witness :
    (testPDExt.runRule 6 ⟨5, 1, 1⟩ ("min", some (.str "now")) =
      .err ⟨"temporal.plainDate.min", [("limit", "6-1-1")]⟩) ∧
    ((⟨6, 1, 1⟩ : PlainDate) = testNowF 6) :=
  ⟨(cmp_failure_error_context Nat PlainDate testPDConfig []
      (fun _ => PlainDate.compare) rfl (by simp) "min" (fun c => c ≥ 0)
      (List.mem_cons_self _ _) 6 ⟨5, 1, 1⟩ (.str "now") ⟨6, 1, 1⟩
      rfl (by decide)).1,
   (cmp_failure_error_context Nat PlainDate testPDConfig []
      (fun _ => PlainDate.compare) rfl (by simp) "min" (fun c => c ≥ 0)
      (List.mem_cons_self _ _) 6 ⟨5, 1, 1⟩ (.str "now") ⟨6, 1, 1⟩
      rfl (by decide)).2 testNowF rfl rfl⟩

/-- C9: the coerce and validate steps are total — coerce never throws and
always yields either a value or the kind's base error, and validate always
returns the value in a structured pair — while the module-level startup
check fails exactly when the Temporal capability is missing, before any
extension is published. -/
theorem totality_and_startup (τ α : Type) (cfg : TypeConfig τ α)
    (extra : List (String × RuleDef τ α)) :
    (∀ v : JSValue α, (makeExtension cfg extra).coerce v ≠ .threw) ∧
    (∀ v : JSValue α,
      (∃ w, (makeExtension cfg extra).coerce v = .ok w) ∨
      (makeExtension cfg extra).coerce v =
        .errs ⟨"temporal." ++ cfg.name ++ ".base", []⟩) ∧
    (∀ v : JSValue α, ((makeExtension cfg extra).validate v).1 = v) ∧
    (moduleInit false = .error temporalRequiredMessage) ∧
    (moduleInit true = .ok registryNames) := by
  refine ⟨fun v => ?_, fun v => ?_, fun v => ?_, rfl, rfl⟩
  · cases v with
    | nullish => simp [makeExtension]
    | typed a => simp [makeExtension]
    | other => simp [makeExtension]
    | str s =>
        cases hp : cfg.parse s with
        | none => simp [makeExtension, hp]
        | some a => simp [makeExtension, hp]
  · cases v with
    | nullish => exact Or.inl ⟨.nullish, rfl⟩
    | typed a => exact Or.inl ⟨.typed a, rfl⟩
    | other => exact Or.inr (by simp [makeExtension, TypeConfig.tag])
    | str s =>
        cases hp : cfg.parse s with
        | none =>
            exact Or.inr (by simp [makeExtension, hp, TypeConfig.tag])
        | some a => exact Or.inl ⟨.typed a, by simp [makeExtension, hp]⟩
  · cases v <;> rfl

/-- C10: every synthesized rule validator returns the input value itself on
success; the defensive validate step returns the unchanged value alongside
any error; and only the coerce step's parse branch ever replaces a value. -/
theorem validators_preserve_value (τ α : Type) :
    (∀ (cfg : TypeConfig τ α) (cmp : τ → α → α → Int) (rule : String)
        (check : Int → Bool) (t : τ) (v w : α) (l : Limit α),
      cmpRuleValidate cfg cmp rule check t v l = .ok w → w = v) ∧
    (∀ (t : τ) (v w : ZonedDateTime) (arg : Option (Limit ZonedDateTime)),
      timezoneValidate t v arg = .ok w → w = v) ∧
    (∀ (t : τ) (v w : Duration) (arg : Option (Limit Duration)),
      positiveValidate t v arg = .ok w → w = v) ∧
    (∀ (t : τ) (v w : Duration) (arg : Option (Limit Duration)),
      negativeValidate t v arg = .ok w → w = v) ∧
    (∀ (t : τ) (v w : Duration) (arg : Option (Limit Duration)),
      nonzeroValidate t v arg = .ok w → w = v) ∧
    (∀ (cfg : TypeConfig τ α) (extra : List (String × RuleDef τ α))
        (v : JSValue α), ((makeExtension cfg extra).validate v).1 = v) ∧
    (∀ (cfg : TypeConfig τ α) (extra : List (String × RuleDef τ α))
        (v w : JSValue α),
      (makeExtension cfg extra).coerce v = .ok w →
        w = v ∨ ∃ s a, v = .str s ∧ cfg.parse s = some a ∧ w = .typed a) := by
  refine ⟨fun cfg cmp rule check t v w l h => ?_,
    fun t v w arg h => ?_, fun t v w arg h => ?_, fun t v w arg h => ?_,
    fun t v w arg h => ?_, fun cfg extra v => by cases v <;> rfl,
    fun cfg extra v w h => ?_⟩
  · cases hres : resolveLimit cfg t l with
    | none => simp [cmpRuleValidate, hres] at h
    | some lim =>
        simp only [cmpRuleValidate, hres] at h
        by_cases hc : check (cmp t v lim) = true
        · rw [if_pos hc] at h; exact (VOut.ok.inj h).symm
        · rw [if_neg hc] at h; exact absurd h (by simp)
  · cases arg with
    | none => exact absurd h (by simp [timezoneValidate])
    | some l =>
        cases l with
        | str tz =>
            by_cases htz : v.timeZoneId = tz
            · simp [timezoneValidate, htz] at h; exact h.symm
            · simp [timezoneValidate, htz] at h
        | inst a => exact absurd h (by simp [timezoneValidate])
        | other => exact absurd h (by simp [timezoneValidate])
  · by_cases hs : v.sign ≤ 0
    · simp [positiveValidate, hs] at h
    · simp [positiveValidate, hs] at h; exact h.symm
  · by_cases hs : v.sign ≥ 0
    · simp [negativeValidate, hs] at h
    · simp [negativeValidate, hs] at h; exact h.symm
  · by_cases hs : v.sign = 0
    · simp [nonzeroValidate, hs] at h
    · simp [nonzeroValidate, hs] at h; exact h.symm
  · cases v with
    | nullish => left; exact (COut.ok.inj h).symm
    | typed a => left; exact (COut.ok.inj h).symm
    | other => exact absurd h (by simp [makeExtension])
    | str s =>
        cases hp : cfg.parse s with
        | none =>
            rw [show (makeExtension cfg extra).coerce (.str s) =
              .errs ⟨cfg.tag ++ ".base", []⟩ from by simp [makeExtension, hp]]
              at h
            exact absurd h (by simp)
        | some a =>
            right
            refine ⟨s, a, rfl, hp, ?_⟩
            rw [show (makeExtension cfg extra).coerce (.str s) =
              .ok (.typed a) from by simp [makeExtension, hp]] at h
            exact (COut.ok.inj h).symm

/-- Witness for C10: a passing comparison rule, timezone rule and sign rule
each return the input value unchanged. -/
theorem validators_preserve_value_witness :
    (cmpRuleValidate testPDConfig (fun _ => PlainDate.compare) "min"
        (fun c => c ≥ 0) 0 ⟨5, 1, 1⟩ (.inst ⟨4, 1, 1⟩) = .ok ⟨5, 1, 1⟩) ∧
    ((⟨5, 1, 1⟩ : PlainDate) = ⟨5, 1, 1⟩) ∧
    (timezoneValidate 0 ⟨0, "UTC"⟩ (some (.str "UTC")) = .ok ⟨0, "UTC"⟩) ∧
    ((⟨0, "UTC"⟩ : ZonedDateTime) = ⟨0, "UTC"⟩) ∧
    (positiveValidate 0 { days := 2 } none = .ok { days := 2 }) ∧
    (({ days := 2 } : Duration) = { days := 2 }) :=
  ⟨by decide,
   (validators_preserve_value Nat PlainDate).1 testPDConfig
     (fun _ => PlainDate.compare) "min" (fun c => c ≥ 0) 0
     ⟨5, 1, 1⟩ ⟨5, 1, 1⟩ (.inst ⟨4, 1, 1⟩) (by decide),
   by decide,
   (validators_preserve_value Nat ZonedDateTime).2.1 0 ⟨0, "UTC"⟩ ⟨0, "UTC"⟩
     (some (.str "UTC")) (by decide),
   by decide,
   (validators_preserve_value Nat Duration).2.2.1 0 { days := 2 }
     { days := 2 } none (by decide)⟩

end JoiTemporal
